import Mathlib

/-!
# Verification of the ip_diffim kernel-fitting core (ImageSubtract.cc / ImageSubtract.h)

Shallow embedding of the candidate-selection and convolve-and-subtract code of
the HSC `ip_diffim` package.  Pixel planes are flattened row-major lists of
exact rationals (image and variance) and naturals (mask bit patterns); the
external afw collaborators (convolution, detection, footprint growing,
subimage extraction) are taken as explicit function parameters, exactly as the
spec designates them as black boxes.
-/

/-- A MaskedImage: per-pixel (value, mask-bits, variance) triples, flattened
row-major.  Mirrors `lsst::afw::image::MaskedImage` as used by
`ImageSubtract.cc`. -/
structure MaskedImg where
  img : List ℚ
  mask : List ℕ
  var : List ℚ

/-- The `BackgroundT` template parameter of `convolveAndSubtract`: either a
scalar or a position-dependent function (position abstracted to the flattened
pixel index). -/
inductive Background where
  | scalar (v : ℚ)
  | func (f : ℕ → ℚ)

/-- `diffim::addSomethingToImage` scalar overload (ImageSubtract.cc:83-90):
adds `value` to every pixel, guarded by `if (value != 0.0)` so a zero scalar
touches nothing. -/
def addScalarToImage (l : List ℚ) (v : ℚ) : List ℚ :=
  if v = 0 then l else l.map (fun x => x + v)

/-- `diffim::addSomethingToImage` Function2 overload (ImageSubtract.cc:64-78):
adds `function(pos)` to each pixel, walking the pixels in order; `i` is the
flattened index of the first pixel of `l`. -/
def addFunctionToImage (f : ℕ → ℚ) : ℕ → List ℚ → List ℚ
  | _, [] => []
  | i, x :: xs => (x + f i) :: addFunctionToImage f (i + 1) xs

/-- Dispatch of `addSomethingToImage` on the background's kind. -/
def applyBackground (l : List ℚ) : Background → List ℚ
  | .scalar v => addScalarToImage l v
  | .func f => addFunctionToImage f 0 l

/-- The background value contributed at flattened pixel index `i`. -/
def backgroundAt : Background → ℕ → ℚ
  | .scalar v, _ => v
  | .func f, i => f i

/-- afw `MaskedImage::operator-=`: image planes subtract, mask planes OR,
variance planes add (the combination used at ImageSubtract.cc:125). -/
def miSub (a b : MaskedImg) : MaskedImg where
  img := List.zipWith (fun x y => x - y) a.img b.img
  mask := List.zipWith (fun x y => x ||| y) a.mask b.mask
  var := List.zipWith (fun x y => x + y) a.var b.var

/-- afw `MaskedImage::operator*=` with a scalar: image scales by `c`, variance
by `c * c`, mask untouched (used with `c = -1` at ImageSubtract.cc:129). -/
def miScale (a : MaskedImg) (c : ℚ) : MaskedImg where
  img := a.img.map (fun x => x * c)
  mask := a.mask
  var := a.var.map (fun x => x * (c * c))

/-- `diffim::convolveAndSubtract`, MaskedImage template (ImageSubtract.cc:105-137).
`convolve` stands for the external black-box `afw::math::convolve` applied to a
whole MaskedImage; `K` is the kernel type.  The code convolves the template,
adds the background to the image plane, subtracts the science image with the
MaskedImage `-=`, and multiplies the whole result by `-1` when `invert`. -/
def convolveAndSubtractMI {K : Type} (convolve : MaskedImg → K → MaskedImg)
    (imageToConvolve imageToNotConvolve : MaskedImg) (k : K)
    (background : Background) (invert : Bool) : MaskedImg :=
  let c0 := convolve imageToConvolve k
  let c1 : MaskedImg := { c0 with img := applyBackground c0.img background }
  let c2 := miSub c1 imageToNotConvolve
  if invert then miScale c2 (-1) else c2

/-- `diffim::convolveAndSubtract`, plain-Image template (ImageSubtract.cc:152-186).
Only the image plane is convolved/subtracted/negated; the mask and variance of
the fresh result are then assigned (`<<=`) from `imageToNotConvolve`. -/
def convolveAndSubtractImg {K : Type} (convolvePlain : List ℚ → K → List ℚ)
    (imageToConvolve : List ℚ) (imageToNotConvolve : MaskedImg) (k : K)
    (background : Background) (invert : Bool) : MaskedImg :=
  let c0 := convolvePlain imageToConvolve k
  let c1 := applyBackground c0 background
  let c2 := List.zipWith (fun x y => x - y) c1 imageToNotConvolve.img
  let c3 := if invert then c2.map (fun x => -x) else c2
  { img := c3, mask := imageToNotConvolve.mask, var := imageToNotConvolve.var }

/-- The image plane exactly as claim C1 words it: convolve, add background,
subtract that sum FROM `imageToNotConvolve`, negate iff `invert`.  This is the
spec-side definition used only to compare against the code's behaviour. -/
def claimedDifferenceImg {K : Type} (convolve : MaskedImg → K → MaskedImg)
    (itc itnc : MaskedImg) (k : K) (bg : Background) (invert : Bool) : List ℚ :=
  let s := applyBackground (convolve itc k).img bg
  let d := List.zipWith (fun x y => x - y) itnc.img s
  if invert then d.map (fun x => -x) else d

theorem addFunctionToImage_length (f : ℕ → ℚ) :
    ∀ (i : ℕ) (l : List ℚ), (addFunctionToImage f i l).length = l.length := by
  intro i l
  induction l generalizing i with
  | nil => rfl
  | cons x xs ih => simp [addFunctionToImage, ih]

theorem applyBackground_length (l : List ℚ) (bg : Background) :
    (applyBackground l bg).length = l.length := by
  cases bg with
  | scalar v =>
      by_cases hv : v = 0 <;> simp [applyBackground, addScalarToImage, hv]
  | func f => simp [applyBackground, addFunctionToImage_length]

theorem getD_map_of_lt {α β : Type} (g : α → β) (l : List α) :
    ∀ (i : ℕ), i < l.length → ∀ (d : β) (e : α),
      (l.map g).getD i d = g (l.getD i e) := by
  induction l with
  | nil => intro i hi; simp at hi
  | cons x xs ih =>
      intro i hi d e
      cases i with
      | zero => simp
      | succ j =>
          simp only [List.map_cons, List.getD_cons_succ]
          exact ih j (by simpa using hi) d e

theorem getD_zipWith_of_lt {α β γ : Type} (g : α → β → γ) (a : List α) :
    ∀ (b : List β) (i : ℕ), i < a.length → i < b.length →
      ∀ (d : γ) (da : α) (db : β),
        (List.zipWith g a b).getD i d = g (a.getD i da) (b.getD i db) := by
  induction a with
  | nil => intro b i hi; simp at hi
  | cons x xs ih =>
      intro b i ha hb d da db
      cases b with
      | nil => simp at hb
      | cons y ys =>
          cases i with
          | zero => simp
          | succ j =>
              simp only [List.zipWith_cons_cons, List.getD_cons_succ]
              exact ih ys j (by simpa using ha) (by simpa using hb) d da db

theorem addFunctionToImage_getD (f : ℕ → ℚ) :
    ∀ (l : List ℚ) (j i : ℕ), i < l.length →
      (addFunctionToImage f j l).getD i 0 = l.getD i 0 + f (j + i) := by
  intro l
  induction l with
  | nil => intro j i hi; simp at hi
  | cons x xs ih =>
      intro j i hi
      cases i with
      | zero => simp [addFunctionToImage]
      | succ m =>
          simp only [addFunctionToImage, List.getD_cons_succ]
          rw [ih (j + 1) m (by simpa using hi)]
          ring_nf

theorem applyBackground_getD (l : List ℚ) (bg : Background) (i : ℕ)
    (h : i < l.length) :
    (applyBackground l bg).getD i 0 = l.getD i 0 + backgroundAt bg i := by
  cases bg with
  | scalar v =>
      by_cases hv : v = 0
      · simp [applyBackground, addScalarToImage, hv, backgroundAt]
      · simp only [applyBackground, addScalarToImage, hv, if_false, backgroundAt]
        exact getD_map_of_lt (fun x => x + v) l i h 0 0
  | func f =>
      simpa using addFunctionToImage_getD f l 0 i h

/-- C1 (amended): pointwise, the image plane of `convolveAndSubtract` (MaskedImage
template) is `(K*T + bg) - I`, negated exactly when `invert` is set — the
opposite sign convention from the claim's wording. -/
theorem convolveAndSubtract_img_pointwise {K : Type}
    (convolve : MaskedImg → K → MaskedImg) (itc itnc : MaskedImg) (k : K)
    (bg : Background) (invert : Bool) (i : ℕ)
    (hc : i < (convolve itc k).img.length) (hn : i < itnc.img.length) :
    (convolveAndSubtractMI convolve itc itnc k bg invert).img.getD i 0 =
      (if invert then (-1 : ℚ) else 1) *
        (((convolve itc k).img.getD i 0 + backgroundAt bg i) -
          itnc.img.getD i 0) := by
  have hlen : i < (applyBackground (convolve itc k).img bg).length := by
    rw [applyBackground_length]; exact hc
  cases invert with
  | false =>
      simp only [convolveAndSubtractMI, miSub, Bool.false_eq_true, if_false]
      rw [getD_zipWith_of_lt (fun x y => x - y) _ _ i hlen hn 0 0 0,
        applyBackground_getD _ _ _ hc]
      ring
  | true =>
      simp only [convolveAndSubtractMI, miSub, miScale, if_true]
      have hz : i < (List.zipWith (fun x y => x - y)
          (applyBackground (convolve itc k).img bg) itnc.img).length := by
        rw [List.length_zipWith]; exact lt_min hlen hn
      rw [getD_map_of_lt (fun x => x * (-1)) _ i hz 0 0,
        getD_zipWith_of_lt (fun x y => x - y) _ _ i hlen hn 0 0 0,
        applyBackground_getD _ _ _ hc]
      ring

/-- Witness for C1's amended theorem at a concrete input. -/
theorem convolveAndSubtract_img_pointwise_witness :
    (0 < ((fun (_ : MaskedImg) (_ : Unit) =>
        ({ img := [4], mask := [0], var := [0] } : MaskedImg))
          ({ img := [0], mask := [0], var := [0] } : MaskedImg) ()).img.length) ∧
    (0 < ({ img := [1], mask := [0], var := [0] } : MaskedImg).img.length) ∧
    (convolveAndSubtractMI
        (fun (_ : MaskedImg) (_ : Unit) =>
          ({ img := [4], mask := [0], var := [0] } : MaskedImg))
        { img := [0], mask := [0], var := [0] }
        { img := [1], mask := [0], var := [0] } () (Background.scalar 2)
        false).img.getD 0 0 =
      (if false then (-1 : ℚ) else 1) *
        ((((fun (_ : MaskedImg) (_ : Unit) =>
            ({ img := [4], mask := [0], var := [0] } : MaskedImg))
              ({ img := [0], mask := [0], var := [0] } : MaskedImg) ()).img.getD 0 0 +
          backgroundAt (Background.scalar 2) 0) -
          ({ img := [1], mask := [0], var := [0] } : MaskedImg).img.getD 0 0) :=
  ⟨by simp, by simp,
    convolveAndSubtract_img_pointwise
      (fun _ _ => { img := [4], mask := [0], var := [0] })
      { img := [0], mask := [0], var := [0] }
      { img := [1], mask := [0], var := [0] } () (Background.scalar 2) false 0
      (by simp) (by simp)⟩

/-- C1 counterexample: at a concrete input with `invert = false` the code's
image plane is `[-1]` while the claim's formula yields `[1]`. -/
theorem convolveAndSubtract_claimC1_counterexample :
    (convolveAndSubtractMI
        (fun (_ : MaskedImg) (_ : Unit) =>
          ({ img := [0], mask := [0], var := [0] } : MaskedImg))
        { img := [0], mask := [0], var := [0] }
        { img := [1], mask := [0], var := [0] } () (Background.scalar 0)
        false).img ≠
      claimedDifferenceImg
        (fun (_ : MaskedImg) (_ : Unit) =>
          ({ img := [0], mask := [0], var := [0] } : MaskedImg))
        { img := [0], mask := [0], var := [0] }
        { img := [1], mask := [0], var := [0] } () (Background.scalar 0)
        false := by
  simp only [convolveAndSubtractMI, claimedDifferenceImg, miSub, applyBackground,
    addScalarToImage, if_pos rfl, Bool.false_eq_true, if_false,
    List.zipWith_cons_cons, List.zipWith_nil_right]
  intro h
  have h0 := List.head_eq_of_cons_eq h
  norm_num at h0

/-- C7: mask and variance propagation of `convolveAndSubtract`.  With a plain
Image template the result's mask and variance are copied unchanged from
`imageToNotConvolve` (ImageSubtract.cc:178-179); with a MaskedImage template
they are the bitwise OR of the (convolved) template mask with the science mask
and the sum of the corresponding variances (the MaskedImage `-=` at line 125;
the `*= -1` of an inverted result leaves mask untouched and scales variance by
`(-1)^2 = 1`). -/
theorem convolveAndSubtract_mask_variance_propagation {K : Type}
    (convolve : MaskedImg → K → MaskedImg) (convolvePlain : List ℚ → K → List ℚ)
    (itcPlain : List ℚ) (itc itnc : MaskedImg) (k : K) (bg : Background)
    (invert : Bool) :
    ((convolveAndSubtractImg convolvePlain itcPlain itnc k bg invert).mask =
        itnc.mask ∧
      (convolveAndSubtractImg convolvePlain itcPlain itnc k bg invert).var =
        itnc.var) ∧
    ((convolveAndSubtractMI convolve itc itnc k bg invert).mask =
        List.zipWith (fun x y => x ||| y) (convolve itc k).mask itnc.mask ∧
      (convolveAndSubtractMI convolve itc itnc k bg invert).var =
        List.zipWith (fun x y => x + y) (convolve itc k).var itnc.var) := by
  refine ⟨⟨rfl, rfl⟩, ?_⟩
  cases invert with
  | false => exact ⟨rfl, rfl⟩
  | true =>
      constructor
      · rfl
      · show (List.zipWith (fun x y => x + y) _ itnc.var).map
            (fun x => x * ((-1 : ℚ) * (-1))) = _
        norm_num

theorem zipWith_sub_replicate_zero (l : List ℚ) :
    ∀ n : ℕ, l.length = n →
      List.zipWith (fun x y => x - y) (List.replicate n (0 : ℚ)) l =
        l.map (fun x => -x) := by
  induction l with
  | nil => intro n _; simp
  | cons x xs ih =>
      intro n hn
      cases n with
      | zero => simp at hn
      | succ m =>
          simp only [List.replicate_succ, List.zipWith_cons_cons, List.map_cons]
          rw [ih m (by simpa using hn), zero_sub]

/-- C8: with a kernel whose convolution output is identically zero and a scalar
background of `0.0`, `convolveAndSubtract` (with the declaration's default
`invert = true`) returns `imageToNotConvolve`'s image plane unchanged; and the
scalar-background adder leaves the image untouched for value `0.0` (the
`if (value != 0.0)` guard at ImageSubtract.cc:87). -/
theorem convolveAndSubtract_zero_kernel_identity {K : Type}
    (convolve : MaskedImg → K → MaskedImg) (itc itnc : MaskedImg) (k : K)
    (n : ℕ) (hzero : (convolve itc k).img = List.replicate n 0)
    (hlen : itnc.img.length = n) :
    (convolveAndSubtractMI convolve itc itnc k (Background.scalar 0) true).img =
      itnc.img ∧
    applyBackground (convolve itc k).img (Background.scalar 0) =
      (convolve itc k).img := by
  have hback : ∀ l : List ℚ, applyBackground l (Background.scalar 0) = l := by
    intro l; simp [applyBackground, addScalarToImage]
  constructor
  · show (List.zipWith (fun x y => x - y)
        (applyBackground (convolve itc k).img (Background.scalar 0)) itnc.img).map
          (fun x => x * (-1)) = itnc.img
    rw [hback, hzero, zipWith_sub_replicate_zero itnc.img n hlen, List.map_map]
    have : ((fun x => x * (-1 : ℚ)) ∘ fun x => -x) = fun x => x := by
      funext x; simp
    rw [this, List.map_id']
  · exact hback _

/-- Witness for C8 at a concrete input. -/
theorem convolveAndSubtract_zero_kernel_identity_witness :
    (((fun (_ : MaskedImg) (_ : Unit) =>
        ({ img := [0, 0], mask := [0, 0], var := [0, 0] } : MaskedImg))
          ({ img := [9, 9], mask := [0, 0], var := [0, 0] } : MaskedImg) ()).img =
      List.replicate 2 0) ∧
    (({ img := [3, 5], mask := [1, 2], var := [7, 8] } : MaskedImg).img.length = 2) ∧
    ((convolveAndSubtractMI
        (fun (_ : MaskedImg) (_ : Unit) =>
          ({ img := [0, 0], mask := [0, 0], var := [0, 0] } : MaskedImg))
        { img := [9, 9], mask := [0, 0], var := [0, 0] }
        { img := [3, 5], mask := [1, 2], var := [7, 8] } ()
        (Background.scalar 0) true).img =
      ({ img := [3, 5], mask := [1, 2], var := [7, 8] } : MaskedImg).img ∧
    applyBackground
        ((fun (_ : MaskedImg) (_ : Unit) =>
          ({ img := [0, 0], mask := [0, 0], var := [0, 0] } : MaskedImg))
            ({ img := [9, 9], mask := [0, 0], var := [0, 0] } : MaskedImg) ()).img
        (Background.scalar 0) =
      ((fun (_ : MaskedImg) (_ : Unit) =>
          ({ img := [0, 0], mask := [0, 0], var := [0, 0] } : MaskedImg))
            ({ img := [9, 9], mask := [0, 0], var := [0, 0] } : MaskedImg) ()).img) :=
  ⟨by simp [List.replicate], by simp,
    convolveAndSubtract_zero_kernel_identity
      (fun _ _ => { img := [0, 0], mask := [0, 0], var := [0, 0] })
      { img := [9, 9], mask := [0, 0], var := [0, 0] }
      { img := [3, 5], mask := [1, 2], var := [7, 8] } () 2
      (by simp [List.replicate]) (by simp)⟩

/-- One pixel of a difference MaskedImage as visited by the footprint functors
of ImageSubtract.h. -/
structure DiffimPixel where
  img : ℚ
  mask : ℕ
  var : ℚ

/-- Accumulator state of `diffim::ImageStatistics` (ImageSubtract.h:138-174):
`_xsum`, `_x2sum`, `_npix`. -/
structure ImageStatisticsState where
  xsum : ℚ
  x2sum : ℚ
  npix : ℕ

/-- The freshly constructed / `reset()` accumulator. -/
def imageStatisticsInit : ImageStatisticsState := { xsum := 0, x2sum := 0, npix := 0 }

/-- `ImageStatistics::operator()` (ImageSubtract.h:145-154): accumulates
`value/sqrt(variance)` and `value^2/variance` and bumps `_npix`, but only when
the pixel's mask value is exactly zero.  `sqrtFn` stands for the C library
`sqrt`, kept abstract since the embedding is over exact rationals. -/
def imageStatisticsVisit (sqrtFn : ℚ → ℚ) (st : ImageStatisticsState)
    (p : DiffimPixel) : ImageStatisticsState :=
  if p.mask = 0 then
    { xsum := st.xsum + p.img / sqrtFn p.var
      x2sum := st.x2sum + p.img * p.img / p.var
      npix := st.npix + 1 }
  else st

/-- Running the accumulator over a sequence of visited pixels. -/
def imageStatisticsRun (sqrtFn : ℚ → ℚ) (ps : List DiffimPixel) :
    ImageStatisticsState :=
  ps.foldl (imageStatisticsVisit sqrtFn) imageStatisticsInit

/-- `ImageStatistics::getMean` (ImageSubtract.h:157-159): `NaN` (modelled as
`none`) unless at least one unmasked pixel was accumulated. -/
def imageStatisticsGetMean (st : ImageStatisticsState) : Option ℚ :=
  if 0 < st.npix then some (st.xsum / st.npix) else none

/-- `ImageStatistics::getVariance` (ImageSubtract.h:161-163): `NaN` (modelled
as `none`) unless at least two unmasked pixels were accumulated; otherwise the
`n/(n-1)`-corrected sample variance, with `getMean()` inlined as in the
source. -/
def imageStatisticsGetVariance (st : ImageStatisticsState) : Option ℚ :=
  if 1 < st.npix then
    some ((st.x2sum / st.npix - (st.xsum / st.npix) * (st.xsum / st.npix)) *
      st.npix / ((st.npix : ℚ) - 1))
  else none

theorem imageStatisticsRun_from (sqrtFn : ℚ → ℚ) (ps : List DiffimPixel) :
    ∀ st : ImageStatisticsState,
      ps.foldl (imageStatisticsVisit sqrtFn) st =
        { xsum := st.xsum +
            ((ps.filter (fun p => p.mask = 0)).map
              (fun p => p.img / sqrtFn p.var)).sum
          x2sum := st.x2sum +
            ((ps.filter (fun p => p.mask = 0)).map
              (fun p => p.img * p.img / p.var)).sum
          npix := st.npix + (ps.filter (fun p => p.mask = 0)).length } := by
  induction ps with
  | nil => intro st; simp
  | cons p ps ih =>
      intro st
      by_cases hm : p.mask = 0
      · simp only [List.foldl_cons, imageStatisticsVisit, hm, if_pos rfl]
        rw [ih]
        simp [List.filter_cons, hm]
        constructor
        · ring
        · constructor
          · ring
          · ring_nf
      · simp only [List.foldl_cons, imageStatisticsVisit, hm, if_neg hm]
        rw [ih]
        simp [List.filter_cons, hm]

/-- C10: `ImageStatistics` accumulates a pixel exactly when its mask value is
zero (its sums and count equal those over the mask-zero pixels), `getMean` is
`NaN`/`none` exactly when no unmasked pixel was seen (else the mean of the
normalized values), and `getVariance` is `NaN`/`none` exactly when fewer than
two unmasked pixels were seen (else the `n/(n-1)`-corrected sample
variance). -/
theorem imageStatistics_characterization (sqrtFn : ℚ → ℚ)
    (ps : List DiffimPixel) :
    (imageStatisticsRun sqrtFn ps).xsum =
        ((ps.filter (fun p => p.mask = 0)).map
          (fun p => p.img / sqrtFn p.var)).sum ∧
    (imageStatisticsRun sqrtFn ps).x2sum =
        ((ps.filter (fun p => p.mask = 0)).map
          (fun p => p.img * p.img / p.var)).sum ∧
    (imageStatisticsRun sqrtFn ps).npix =
        (ps.filter (fun p => p.mask = 0)).length ∧
    (imageStatisticsGetMean (imageStatisticsRun sqrtFn ps) = none ↔
        (ps.filter (fun p => p.mask = 0)).length = 0) ∧
    (0 < (ps.filter (fun p => p.mask = 0)).length →
      imageStatisticsGetMean (imageStatisticsRun sqrtFn ps) =
        some (((ps.filter (fun p => p.mask = 0)).map
            (fun p => p.img / sqrtFn p.var)).sum /
          (ps.filter (fun p => p.mask = 0)).length)) ∧
    (imageStatisticsGetVariance (imageStatisticsRun sqrtFn ps) = none ↔
        (ps.filter (fun p => p.mask = 0)).length < 2) := by
  have hrun : imageStatisticsRun sqrtFn ps =
      { xsum := ((ps.filter (fun p => p.mask = 0)).map
          (fun p => p.img / sqrtFn p.var)).sum
        x2sum := ((ps.filter (fun p => p.mask = 0)).map
          (fun p => p.img * p.img / p.var)).sum
        npix := (ps.filter (fun p => p.mask = 0)).length } := by
    rw [imageStatisticsRun, imageStatisticsRun_from]
    simp [imageStatisticsInit]
  rw [hrun]
  refine ⟨rfl, rfl, rfl, ?_, ?_, ?_⟩
  · simp only [imageStatisticsGetMean]
    by_cases h : 0 < (ps.filter (fun p => p.mask = 0)).length
    · simp [h, Nat.pos_iff_ne_zero.mp h]
    · simp [h, Nat.eq_zero_of_not_pos h]
  · intro h
    simp [imageStatisticsGetMean, h]
  · simp only [imageStatisticsGetVariance]
    by_cases h : 1 < (ps.filter (fun p => p.mask = 0)).length
    · rw [if_pos h]
      simp only [iff_false, reduceCtorEq, false_iff]
      omega
    · rw [if_neg h]
      simp only [true_iff]
      omega

/-- Modelled from the spec: one usable cell's contribution to the global
spatial fit of `BuildSpatialKernelVisitor` (whose `processCandidate` /
`solveLinearEquation` bodies are declared in BuildSpatialKernelVisitor.h but
implemented outside this repository): a position, the cell's fitted
coefficient vector (one entry per basis kernel plus background), and a
weight (inverse variance from the cell's solution covariance). -/
structure SpatialSample (n : ℕ) where
  pos : ℚ × ℚ
  coeffs : Fin n → ℚ
  weight : ℚ

/-- Modelled from the spec: the per-coefficient weighted-least-squares
regression accumulators — for each of the `n` coefficients a normal matrix
over the `nT` spatial-function terms and a right-hand side. -/
def SpatialAccum (n nT : ℕ) : Type :=
  (Fin n → Fin nT → Fin nT → ℚ) × (Fin n → Fin nT → ℚ)

instance (n nT : ℕ) : AddCommMonoid (SpatialAccum n nT) :=
  inferInstanceAs (AddCommMonoid ((Fin n → Fin nT → Fin nT → ℚ) × (Fin n → Fin nT → ℚ)))

/-- Modelled from the spec: the normal-equation contribution of one sample,
`w * phi(p) * phi(p)ᵀ` and `w * value * phi(p)`, where `phi` evaluates the
`nT` spatial basis functions at a position. -/
def sampleContribution {n nT : ℕ} (phi : ℚ × ℚ → Fin nT → ℚ)
    (s : SpatialSample n) : SpatialAccum n nT :=
  (fun _ j k => s.weight * phi s.pos j * phi s.pos k,
   fun i j => s.weight * s.coeffs i * phi s.pos j)

/-- Modelled from the spec: `processCandidate` adds one sample's contribution
into the running accumulators. -/
def processCandidateAcc {n nT : ℕ} (phi : ℚ × ℚ → Fin nT → ℚ)
    (st : SpatialAccum n nT) (s : SpatialSample n) : SpatialAccum n nT :=
  st + sampleContribution phi s

/-- Accumulating a whole list of cell samples, in list order. -/
def accumulateSamples {n nT : ℕ} (phi : ℚ × ℚ → Fin nT → ℚ)
    (samples : List (SpatialSample n)) : SpatialAccum n nT :=
  samples.foldl (processCandidateAcc phi) 0

/-- Modelled from the spec: `solveLinearEquation` turns the accumulated
per-coefficient normal equations into fitted spatial-function coefficients;
the linear solver itself is the excluded numerical collaborator, so it is any
function of the accumulated sums. -/
def spatialSolve {n nT : ℕ} (solver : SpatialAccum n nT → (Fin n → Fin nT → ℚ))
    (phi : ℚ × ℚ → Fin nT → ℚ) (samples : List (SpatialSample n)) :
    Fin n → Fin nT → ℚ :=
  solver (accumulateSamples phi samples)

theorem accumulateSamples_eq_sum {n nT : ℕ} (phi : ℚ × ℚ → Fin nT → ℚ)
    (samples : List (SpatialSample n)) :
    accumulateSamples phi samples = (samples.map (sampleContribution phi)).sum := by
  rw [accumulateSamples]
  have key : ∀ (l : List (SpatialSample n)) (st : SpatialAccum n nT),
      l.foldl (processCandidateAcc phi) st = st + (l.map (sampleContribution phi)).sum := by
    intro l
    induction l with
    | nil => intro st; simp
    | cons s l ih =>
        intro st
        simp only [List.foldl_cons, List.map_cons, List.sum_cons, ih,
          processCandidateAcc]
        rw [add_assoc]
  rw [key]
  simp

/-- C9: the spatial solve is order-independent — accumulating the same set of
(position, coefficient-vector, weight) samples in any permutation and then
solving yields identical fitted spatial coefficients, because only the
accumulated sums enter the solve. -/
theorem spatialSolve_perm_invariant {n nT : ℕ}
    (solver : SpatialAccum n nT → (Fin n → Fin nT → ℚ))
    (phi : ℚ × ℚ → Fin nT → ℚ) (samples samples' : List (SpatialSample n))
    (hperm : samples.Perm samples') :
    spatialSolve solver phi samples = spatialSolve solver phi samples' := by
  have hsum : accumulateSamples phi samples = accumulateSamples phi samples' := by
    rw [accumulateSamples_eq_sum, accumulateSamples_eq_sum]
    exact List.Perm.sum_eq (List.Perm.map (sampleContribution phi) hperm)
  simp [spatialSolve, hsum]

/-- Witness for C9: two concrete samples accumulated in both orders. -/
theorem spatialSolve_perm_invariant_witness :
    (List.Perm
        [(⟨(0, 0), fun _ => 2, 1⟩ : SpatialSample 1),
         (⟨(1, 0), fun _ => 3, 2⟩ : SpatialSample 1)]
        [(⟨(1, 0), fun _ => 3, 2⟩ : SpatialSample 1),
         (⟨(0, 0), fun _ => 2, 1⟩ : SpatialSample 1)]) ∧
    spatialSolve (fun a : SpatialAccum 1 1 => a.2) (fun _ _ => (1 : ℚ))
        [(⟨(0, 0), fun _ => 2, 1⟩ : SpatialSample 1),
         (⟨(1, 0), fun _ => 3, 2⟩ : SpatialSample 1)] =
      spatialSolve (fun a : SpatialAccum 1 1 => a.2) (fun _ _ => (1 : ℚ))
        [(⟨(1, 0), fun _ => 3, 2⟩ : SpatialSample 1),
         (⟨(0, 0), fun _ => 2, 1⟩ : SpatialSample 1)] :=
  ⟨List.Perm.swap _ _ _,
    spatialSolve_perm_invariant (fun a : SpatialAccum 1 1 => a.2) (fun _ _ => (1 : ℚ)) _ _
      (List.Perm.swap _ _ _)⟩

/-- A full-frame mask plane: the bit pattern at each parent-frame pixel. -/
def MaskPlane : Type := ℤ × ℤ → ℕ

/-- Clearing one mask plane's bit out of a pixel's bit pattern. -/
def clearBit (v bit : ℕ) : ℕ := (v ||| bit) ^^^ bit

/-- afw `Mask::clearMaskPlane`: clear the plane's bit on every pixel
(ImageSubtract.cc:248-249 and 363-364). -/
def clearMaskPlane (m : MaskPlane) (bit : ℕ) : MaskPlane :=
  fun p => clearBit (m p) bit

/-- An integer bounding box, `image::BBox` with corners (x0,y0)-(x1,y1). -/
structure BBox where
  x0 : ℤ
  y0 : ℤ
  x1 : ℤ
  y1 : ℤ

/-- `detection::Footprint` as the selection loop consumes it: a pixel count,
a bounding box and the set of member pixels (parent-frame coordinates). -/
structure Footprint where
  npix : ℕ
  bbox : BBox
  pixels : List (ℤ × ℤ)

/-- `detection::setMaskFromFootprint`: OR the given bit into every pixel
of the footprint (ImageSubtract.cc:357-358). -/
def setMaskFromFootprint (m : MaskPlane) (pixels : List (ℤ × ℤ)) (bit : ℕ) :
    MaskPlane :=
  fun p => if p ∈ pixels then m p ||| bit else m p

/-- `diffim::FindSetBits` (ImageSubtract.h:74-95) applied to a footprint:
`apply` re-initializes the accumulator (`FootprintFunctor::apply` calls the
overridden `reset`) and ORs the mask value of every footprint pixel. -/
def findSetBits (m : MaskPlane) (pixels : List (ℤ × ℤ)) : ℕ :=
  pixels.foldl (fun b p => b ||| m p) 0

/-- The policy entries read at ImageSubtract.cc:212-223 (detThresholdType and
fpNpixMin are consumed by the external detection and folded into
`SelectEnv.detect`). -/
structure SelectPolicy where
  fpNpixMax : ℕ
  kernelCols : ℤ
  kernelRows : ℤ
  fpGrowKsize : ℚ
  minCleanFp : ℤ
  detThreshold : ℚ
  detThresholdScaling : ℚ
  detThresholdMin : ℚ

/-- The external collaborators of `getCollectionOfFootprintsForPsfMatching`:
image geometry, the bit value of the two added diffim mask planes, footprint
growing, subimage extraction success, and detection. -/
structure SelectEnv where
  width : ℤ
  height : ℤ
  xy0 : ℤ × ℤ
  candidateBit : ℕ
  usedBit : ℕ
  grow : ℤ → Footprint → Footprint
  extractOk : BBox → Bool
  detect : ℚ → List Footprint

/-- C++ `int(...)` cast of a double: truncation toward zero. -/
def cppIntCast (q : ℚ) : ℤ := if 0 ≤ q then ⌊q⌋ else ⌈q⌉

/-- `fpGrowPix = int(fpGrowKsize * ((kCols > kRows) ? kCols : kRows))`
(ImageSubtract.cc:236). -/
def fpGrowPix (cfg : SelectPolicy) : ℤ :=
  cppIntCast (cfg.fpGrowKsize *
    ((if cfg.kernelRows < cfg.kernelCols then cfg.kernelCols else cfg.kernelRows : ℤ) : ℚ))

/-- `BBox::shift` (ImageSubtract.cc:320). -/
def shiftBBox (b : BBox) (dx dy : ℤ) : BBox :=
  { x0 := b.x0 + dx, y0 := b.y0 + dy, x1 := b.x1 + dx, y1 := b.y1 + dy }

/-- The reasons the loop body can `continue` past a footprint, in source
order. -/
inductive RejectReason where
  | tooManyPix
  | outOfBounds
  | extractFailed
  | maskedInConvolve
  | maskedInNotConvolve
deriving DecidableEq

/-- Size check (ImageSubtract.cc:273): strictly more pixels than `fpNpixMax`. -/
def failsSizeCheck (cfg : SelectPolicy) (fp : Footprint) : Prop :=
  cfg.fpNpixMax < fp.npix

/-- Bounds check (ImageSubtract.cc:321-324) on the grown footprint's
(parent-frame) bounding box. -/
def failsBoundsCheck (env : SelectEnv) (fpGrow : Footprint) : Prop :=
  fpGrow.bbox.x0 < 0 ∨ fpGrow.bbox.y0 < 0 ∨
    env.width < fpGrow.bbox.x1 ∨ env.height < fpGrow.bbox.y1

/-- Subimage-extraction check (ImageSubtract.cc:329-338) on the bbox shifted
to pixel coordinates. -/
def failsExtraction (env : SelectEnv) (fpGrow : Footprint) : Prop :=
  env.extractOk (shiftBBox fpGrow.bbox (-env.xy0.1) (-env.xy0.2)) = false

/-- Mask check in imageToConvolve (ImageSubtract.cc:341-346). -/
def failsMaskConvolve (m1 : MaskPlane) (fpGrow : Footprint) : Prop :=
  findSetBits m1 fpGrow.pixels ≠ 0

/-- Mask check in imageToNotConvolve (ImageSubtract.cc:348-353). -/
def failsMaskNotConvolve (m2 : MaskPlane) (fpGrow : Footprint) : Prop :=
  findSetBits m2 fpGrow.pixels ≠ 0

/-- The body of the footprint loop up to the accept/reject decision
(ImageSubtract.cc:271-353), with the masks as they stand when the footprint is
examined: the first failing check rejects with its reason. -/
def checkFootprint (cfg : SelectPolicy) (env : SelectEnv) (m1 m2 : MaskPlane)
    (fp : Footprint) : Except RejectReason Footprint :=
  if cfg.fpNpixMax < fp.npix then .error .tooManyPix
  else
    let fpGrow := env.grow (fpGrowPix cfg) fp
    if fpGrow.bbox.x0 < 0 ∨ fpGrow.bbox.y0 < 0 ∨
        env.width < fpGrow.bbox.x1 ∨ env.height < fpGrow.bbox.y1 then
      .error .outOfBounds
    else if env.extractOk (shiftBBox fpGrow.bbox (-env.xy0.1) (-env.xy0.2)) = false then
      .error .extractFailed
    else if findSetBits m1 fpGrow.pixels ≠ 0 then .error .maskedInConvolve
    else if findSetBits m2 fpGrow.pixels ≠ 0 then .error .maskedInNotConvolve
    else .ok fpGrow

/-- C4: the five rejection checks run in the fixed source order with
short-circuiting — a footprint is accepted exactly when all five pass, and is
rejected with reason `r` exactly when `r`'s check fails and every earlier
check passes. -/
theorem checkFootprint_order_characterization (cfg : SelectPolicy)
    (env : SelectEnv) (m1 m2 : MaskPlane) (fp : Footprint) :
    (checkFootprint cfg env m1 m2 fp = .ok (env.grow (fpGrowPix cfg) fp) ↔
      (¬failsSizeCheck cfg fp ∧
        ¬failsBoundsCheck env (env.grow (fpGrowPix cfg) fp) ∧
        ¬failsExtraction env (env.grow (fpGrowPix cfg) fp) ∧
        ¬failsMaskConvolve m1 (env.grow (fpGrowPix cfg) fp) ∧
        ¬failsMaskNotConvolve m2 (env.grow (fpGrowPix cfg) fp))) ∧
    (checkFootprint cfg env m1 m2 fp = .error .tooManyPix ↔
      failsSizeCheck cfg fp) ∧
    (checkFootprint cfg env m1 m2 fp = .error .outOfBounds ↔
      (¬failsSizeCheck cfg fp ∧
        failsBoundsCheck env (env.grow (fpGrowPix cfg) fp))) ∧
    (checkFootprint cfg env m1 m2 fp = .error .extractFailed ↔
      (¬failsSizeCheck cfg fp ∧
        ¬failsBoundsCheck env (env.grow (fpGrowPix cfg) fp) ∧
        failsExtraction env (env.grow (fpGrowPix cfg) fp))) ∧
    (checkFootprint cfg env m1 m2 fp = .error .maskedInConvolve ↔
      (¬failsSizeCheck cfg fp ∧
        ¬failsBoundsCheck env (env.grow (fpGrowPix cfg) fp) ∧
        ¬failsExtraction env (env.grow (fpGrowPix cfg) fp) ∧
        failsMaskConvolve m1 (env.grow (fpGrowPix cfg) fp))) ∧
    (checkFootprint cfg env m1 m2 fp = .error .maskedInNotConvolve ↔
      (¬failsSizeCheck cfg fp ∧
        ¬failsBoundsCheck env (env.grow (fpGrowPix cfg) fp) ∧
        ¬failsExtraction env (env.grow (fpGrowPix cfg) fp) ∧
        ¬failsMaskConvolve m1 (env.grow (fpGrowPix cfg) fp) ∧
        failsMaskNotConvolve m2 (env.grow (fpGrowPix cfg) fp))) := by
  simp only [checkFootprint, failsSizeCheck, failsBoundsCheck, failsExtraction,
    failsMaskConvolve, failsMaskNotConvolve]
  split_ifs with h1 h2 h3 h4 h5 <;> simp_all

/-- State threaded through one detection pass: the two (mutated) masks and
`footprintListOut` (the clean-count `nCleanFp` always equals its length,
since both are reset together at pass start and bumped together on accept). -/
structure PassState where
  mask1 : MaskPlane
  mask2 : MaskPlane
  out : List Footprint

/-- One iteration of the footprint loop (ImageSubtract.cc:271-360): reject
(`continue`) or append the grown footprint and OR the candidate bit into both
masks over its pixels. -/
def processFootprint (cfg : SelectPolicy) (env : SelectEnv) (st : PassState)
    (fp : Footprint) : PassState :=
  match checkFootprint cfg env st.mask1 st.mask2 fp with
  | .error _ => st
  | .ok fpGrow =>
      { mask1 := setMaskFromFootprint st.mask1 fpGrow.pixels env.candidateBit
        mask2 := setMaskFromFootprint st.mask2 fpGrow.pixels env.candidateBit
        out := st.out ++ [fpGrow] }

/-- The whole footprint loop over the detected list, in detection order. -/
def processFootprintList (cfg : SelectPolicy) (env : SelectEnv)
    (st : PassState) (fps : List Footprint) : PassState :=
  fps.foldl (processFootprint cfg env) st

/-- State of the outer threshold-retry loop. -/
structure LoopState where
  mask1 : MaskPlane
  mask2 : MaskPlane
  out : List Footprint
  thresh : ℚ

/-- One body of the while loop (ImageSubtract.cc:247-362): clear the candidate
plane on both masks, detect at the current threshold, filter the raw
footprints, and scale the threshold. -/
def selectPass (cfg : SelectPolicy) (env : SelectEnv) (st : LoopState) :
    LoopState :=
  let m1 := clearMaskPlane st.mask1 env.candidateBit
  let m2 := clearMaskPlane st.mask2 env.candidateBit
  let ps := processFootprintList cfg env
    { mask1 := m1, mask2 := m2, out := [] } (env.detect st.thresh)
  { mask1 := ps.mask1, mask2 := ps.mask2, out := ps.out
    thresh := st.thresh * cfg.detThresholdScaling }

/-- The while condition `(nCleanFp < minCleanFp) and (detThreshold >
detThresholdMin)` (ImageSubtract.cc:247). -/
def loopCond (cfg : SelectPolicy) (st : LoopState) : Bool :=
  decide ((st.out.length : ℤ) < cfg.minCleanFp) &&
    decide (cfg.detThresholdMin < st.thresh)

/-- One guarded step of the while loop; a stopped state is absorbing. -/
def selectStep (cfg : SelectPolicy) (env : SelectEnv) (st : LoopState) :
    LoopState :=
  if loopCond cfg st then selectPass cfg env st else st

/-- Entry state: empty clean list, policy's initial threshold, caller's
masks. -/
def initLoopState (cfg : SelectPolicy) (m1 m2 : MaskPlane) : LoopState :=
  { mask1 := m1, mask2 := m2, out := [], thresh := cfg.detThreshold }

/-- The loop iterated `fuel` times; by C5's bound the state is stopped (and
thereafter frozen) once `fuel` reaches the claim's iteration bound. -/
def runSelect (cfg : SelectPolicy) (env : SelectEnv) (m1 m2 : MaskPlane)
    (fuel : ℕ) : LoopState :=
  (selectStep cfg env)^[fuel] (initLoopState cfg m1 m2)

/-- The message of the exception thrown at ImageSubtract.cc:367. -/
def noCandidatesMsg : String := "Unable to find any footprints for Psf matching"

/-- `getCollectionOfFootprintsForPsfMatching` (ImageSubtract.cc:204-376):
run the retry loop, then throw iff the final clean list is empty. -/
def getCollectionOfFootprints (cfg : SelectPolicy) (env : SelectEnv)
    (m1 m2 : MaskPlane) (fuel : ℕ) : Except String (List Footprint) :=
  let st := runSelect cfg env m1 m2 fuel
  if st.out.length = 0 then .error noCandidatesMsg else .ok st.out

/-- Mask of imageToConvolve after the function returns: the final clear of the
candidate plane (ImageSubtract.cc:363). -/
def finalMask1 (cfg : SelectPolicy) (env : SelectEnv) (m1 m2 : MaskPlane)
    (fuel : ℕ) : MaskPlane :=
  clearMaskPlane (runSelect cfg env m1 m2 fuel).mask1 env.candidateBit

/-- Mask of imageToNotConvolve after the function returns
(ImageSubtract.cc:364). -/
def finalMask2 (cfg : SelectPolicy) (env : SelectEnv) (m1 m2 : MaskPlane)
    (fuel : ℕ) : MaskPlane :=
  clearMaskPlane (runSelect cfg env m1 m2 fuel).mask2 env.candidateBit

/-- C2: once the retry loop has stopped, the function throws (the
`NoCandidatesError` of the spec) exactly when the final pass accepted zero
clean footprints; otherwise it returns precisely that non-empty list.
Moreover (for any meaningful `minCleanFp ≥ 1`) a throw can only happen with
the threshold already at or below the allowed minimum, i.e. after the retry
loop ran the threshold down. -/
theorem getCollectionOfFootprints_error_iff_empty (cfg : SelectPolicy)
    (env : SelectEnv) (m1 m2 : MaskPlane) (fuel : ℕ)
    (hstop : loopCond cfg (runSelect cfg env m1 m2 fuel) = false) :
    (getCollectionOfFootprints cfg env m1 m2 fuel = .error noCandidatesMsg ↔
      (runSelect cfg env m1 m2 fuel).out = []) ∧
    ((runSelect cfg env m1 m2 fuel).out ≠ [] →
      getCollectionOfFootprints cfg env m1 m2 fuel =
        .ok (runSelect cfg env m1 m2 fuel).out) ∧
    ((runSelect cfg env m1 m2 fuel).out = [] → 1 ≤ cfg.minCleanFp →
      (runSelect cfg env m1 m2 fuel).thresh ≤ cfg.detThresholdMin) := by
  refine ⟨?_, ?_, ?_⟩
  · rw [getCollectionOfFootprints]
    by_cases h : (runSelect cfg env m1 m2 fuel).out.length = 0
    · simp [h, List.length_eq_zero.mp h]
    · simp only [h, if_neg h]
      constructor
      · intro hc; exact absurd hc (by simp)
      · intro hc; exact absurd (by simp [hc]) h
  · intro hne
    rw [getCollectionOfFootprints]
    simp [List.length_eq_zero, hne]
  · intro hempty hmin
    rw [loopCond] at hstop
    simp only [Bool.and_eq_false_iff, decide_eq_false_iff_not, not_lt] at hstop
    rcases hstop with h | h
    · exfalso
      rw [hempty] at h
      simp only [List.length_nil, Nat.cast_zero] at h
      omega
    · exact h

/-- A concrete clean footprint used to exercise the selection loop. -/
def testFp : Footprint :=
  { npix := 1, bbox := { x0 := 1, y0 := 1, x1 := 2, y1 := 2 }, pixels := [(1, 1)] }

/-- A concrete policy: one clean footprint suffices. -/
def testCfg : SelectPolicy :=
  { fpNpixMax := 9, kernelCols := 3, kernelRows := 3, fpGrowKsize := 1,
    minCleanFp := 1, detThreshold := 10, detThresholdScaling := 1 / 2,
    detThresholdMin := 1 }

/-- A concrete environment: growing is the identity, extraction always
succeeds, detection always finds exactly `testFp`. -/
def testEnv : SelectEnv :=
  { width := 10, height := 10, xy0 := (0, 0), candidateBit := 16, usedBit := 32,
    grow := fun _ fp => fp, extractOk := fun _ => true,
    detect := fun _ => [testFp] }

/-- Initially clean masks on both images. -/
def testMask : MaskPlane := fun _ => 0

/-- Witness for C2 at the concrete run: one pass accepts `testFp` and the
loop stops. -/
theorem getCollectionOfFootprints_error_iff_empty_witness :
    (loopCond testCfg (runSelect testCfg testEnv testMask testMask 1) = false) ∧
    ((getCollectionOfFootprints testCfg testEnv testMask testMask 1 =
        .error noCandidatesMsg ↔
      (runSelect testCfg testEnv testMask testMask 1).out = []) ∧
    ((runSelect testCfg testEnv testMask testMask 1).out ≠ [] →
      getCollectionOfFootprints testCfg testEnv testMask testMask 1 =
        .ok (runSelect testCfg testEnv testMask testMask 1).out) ∧
    ((runSelect testCfg testEnv testMask testMask 1).out = [] →
      1 ≤ testCfg.minCleanFp →
      (runSelect testCfg testEnv testMask testMask 1).thresh ≤
        testCfg.detThresholdMin)) :=
  ⟨by decide, getCollectionOfFootprints_error_iff_empty testCfg testEnv
      testMask testMask 1 (by decide)⟩

deriving instance DecidableEq for BBox

deriving instance DecidableEq for Footprint

/-- C6 (code bug, evaluated at the failing input): the concrete run accepts
`testFp` and returns it, yet after the function returns the accepted
footprint's pixel has NEITHER the "used" bit (which the code never sets
anywhere, despite adding the plane "that will tell us which ones are used" at
ImageSubtract.cc:231-233) NOR the candidate bit (set on acceptance at lines
357-358 but cleared at lines 363-364) in either image's mask. -/
theorem usedPlane_never_set_at_concrete_run :
    getCollectionOfFootprints testCfg testEnv testMask testMask 1 =
      .ok [testFp] ∧
    finalMask1 testCfg testEnv testMask testMask 1 (1, 1) &&&
      testEnv.usedBit = 0 ∧
    finalMask2 testCfg testEnv testMask testMask 1 (1, 1) &&&
      testEnv.usedBit = 0 ∧
    finalMask1 testCfg testEnv testMask testMask 1 (1, 1) &&&
      testEnv.candidateBit = 0 ∧
    finalMask2 testCfg testEnv testMask testMask 1 (1, 1) &&&
      testEnv.candidateBit = 0 :=
  ⟨rfl, by decide, by decide, by decide, by decide⟩

theorem selectStep_of_stopped (cfg : SelectPolicy) (env : SelectEnv)
    (st : LoopState) (h : loopCond cfg st = false) :
    selectStep cfg env st = st := by
  simp [selectStep, h]

theorem selectStep_of_running (cfg : SelectPolicy) (env : SelectEnv)
    (st : LoopState) (h : loopCond cfg st = true) :
    selectStep cfg env st = selectPass cfg env st := by
  simp [selectStep, h]

theorem iterate_of_stopped (cfg : SelectPolicy) (env : SelectEnv)
    (st : LoopState) (h : loopCond cfg st = false) :
    ∀ m : ℕ, (selectStep cfg env)^[m] st = st := by
  intro m
  induction m with
  | zero => rfl
  | succ n ih =>
      rw [Function.iterate_succ_apply', ih, selectStep_of_stopped cfg env st h]

theorem selectPass_thresh (cfg : SelectPolicy) (env : SelectEnv)
    (st : LoopState) :
    (selectPass cfg env st).thresh = st.thresh * cfg.detThresholdScaling := rfl

theorem thresh_pos (cfg : SelectPolicy) (env : SelectEnv) (m1 m2 : MaskPlane)
    (ht : 0 < cfg.detThreshold) (hs : 0 < cfg.detThresholdScaling) :
    ∀ k : ℕ, 0 < ((selectStep cfg env)^[k] (initLoopState cfg m1 m2)).thresh := by
  intro k
  induction k with
  | zero => simpa [initLoopState] using ht
  | succ n ih =>
      rw [Function.iterate_succ_apply']
      by_cases h : loopCond cfg ((selectStep cfg env)^[n] (initLoopState cfg m1 m2)) = true
      · rw [selectStep_of_running cfg env _ h, selectPass_thresh]
        exact mul_pos ih hs
      · rw [selectStep_of_stopped cfg env _ (by simpa using h)]
        exact ih

theorem thresh_formula (cfg : SelectPolicy) (env : SelectEnv)
    (m1 m2 : MaskPlane) :
    ∀ k : ℕ,
      (∀ j, j < k →
        loopCond cfg ((selectStep cfg env)^[j] (initLoopState cfg m1 m2)) = true) →
      ((selectStep cfg env)^[k] (initLoopState cfg m1 m2)).thresh =
        cfg.detThreshold * cfg.detThresholdScaling ^ k := by
  intro k
  induction k with
  | zero => intro _; simp [initLoopState]
  | succ n ih =>
      intro h
      have hc := h n (Nat.lt_succ_self n)
      rw [Function.iterate_succ_apply', selectStep_of_running cfg env _ hc,
        selectPass_thresh, ih (fun j hj => h j (Nat.lt_succ_of_lt hj))]
      ring

/-- C5: while the retry loop is running (scaling in (0,1), positive floor
below the initial threshold), the detection threshold strictly decreases from
each pass to the next, and the loop has stopped after at most
`ceil(log(detThresholdMin/detThreshold)/log(detThresholdScaling))`
iterations. -/
theorem detection_threshold_decreases_and_terminates (cfg : SelectPolicy)
    (env : SelectEnv) (m1 m2 : MaskPlane)
    (hs0 : 0 < cfg.detThresholdScaling) (hs1 : cfg.detThresholdScaling < 1)
    (hm0 : 0 < cfg.detThresholdMin)
    (hmt : cfg.detThresholdMin < cfg.detThreshold) :
    (∀ k : ℕ,
      loopCond cfg ((selectStep cfg env)^[k] (initLoopState cfg m1 m2)) = true →
      ((selectStep cfg env)^[k + 1] (initLoopState cfg m1 m2)).thresh <
        ((selectStep cfg env)^[k] (initLoopState cfg m1 m2)).thresh) ∧
    loopCond cfg ((selectStep cfg env)^[(⌈Real.log
        ((cfg.detThresholdMin : ℝ) / (cfg.detThreshold : ℝ)) /
          Real.log (cfg.detThresholdScaling : ℝ)⌉).toNat]
      (initLoopState cfg m1 m2)) = false := by
  have ht0 : (0 : ℚ) < cfg.detThreshold := lt_trans hm0 hmt
  constructor
  · intro k hk
    rw [Function.iterate_succ_apply', selectStep_of_running cfg env _ hk,
      selectPass_thresh]
    exact mul_lt_of_lt_one_right (thresh_pos cfg env m1 m2 ht0 hs0 k) hs1
  · set x : ℝ := Real.log ((cfg.detThresholdMin : ℝ) / (cfg.detThreshold : ℝ)) /
      Real.log (cfg.detThresholdScaling : ℝ) with hxdef
    set K : ℕ := (⌈x⌉).toNat with hKdef
    by_cases hall : ∀ j, j < K →
        loopCond cfg ((selectStep cfg env)^[j] (initLoopState cfg m1 m2)) = true
    · have hthresh := thresh_formula cfg env m1 m2 K hall
      have hs0R : (0 : ℝ) < (cfg.detThresholdScaling : ℝ) := by exact_mod_cast hs0
      have hs1R : (cfg.detThresholdScaling : ℝ) < 1 := by exact_mod_cast hs1
      have hm0R : (0 : ℝ) < (cfg.detThresholdMin : ℝ) := by exact_mod_cast hm0
      have ht0R : (0 : ℝ) < (cfg.detThreshold : ℝ) := by exact_mod_cast ht0
      have hratio : (0 : ℝ) < (cfg.detThresholdMin : ℝ) / (cfg.detThreshold : ℝ) :=
        div_pos hm0R ht0R
      have hratio1 : (cfg.detThresholdMin : ℝ) / (cfg.detThreshold : ℝ) < 1 := by
        rw [div_lt_one ht0R]
        exact_mod_cast hmt
      have hlogs : Real.log (cfg.detThresholdScaling : ℝ) < 0 :=
        Real.log_neg hs0R hs1R
      have hlogr : Real.log ((cfg.detThresholdMin : ℝ) / (cfg.detThreshold : ℝ)) < 0 :=
        Real.log_neg hratio hratio1
      have hxpos : 0 < x := div_pos_of_neg_of_neg hlogr hlogs
      have hceil : (0 : ℤ) ≤ ⌈x⌉ := le_of_lt (Int.ceil_pos.mpr hxpos)
      have hKge : x ≤ (K : ℝ) := by
        have h3 : ((K : ℕ) : ℝ) = ((⌈x⌉ : ℤ) : ℝ) := by
          rw [hKdef]
          exact_mod_cast congrArg (fun z : ℤ => (z : ℝ)) (Int.toNat_of_nonneg hceil)
        rw [h3]
        exact Int.le_ceil x
      have hmul : (K : ℝ) * Real.log (cfg.detThresholdScaling : ℝ) ≤
          x * Real.log (cfg.detThresholdScaling : ℝ) :=
        mul_le_mul_of_nonpos_right hKge (le_of_lt hlogs)
      have hxls : x * Real.log (cfg.detThresholdScaling : ℝ) =
          Real.log ((cfg.detThresholdMin : ℝ) / (cfg.detThreshold : ℝ)) := by
        rw [hxdef]
        exact div_mul_cancel₀ _ (ne_of_lt hlogs)
      have hlogpow : Real.log ((cfg.detThresholdScaling : ℝ) ^ K) ≤
          Real.log ((cfg.detThresholdMin : ℝ) / (cfg.detThreshold : ℝ)) := by
        rw [Real.log_pow]
        rw [hxls] at hmul
        exact hmul
      have hpowpos : (0 : ℝ) < (cfg.detThresholdScaling : ℝ) ^ K := pow_pos hs0R K
      have hpow : (cfg.detThresholdScaling : ℝ) ^ K ≤
          (cfg.detThresholdMin : ℝ) / (cfg.detThreshold : ℝ) :=
        (Real.log_le_log_iff hpowpos hratio).mp hlogpow
      have hfinR : (cfg.detThreshold : ℝ) * (cfg.detThresholdScaling : ℝ) ^ K ≤
          (cfg.detThresholdMin : ℝ) := by
        have h4 := mul_le_mul_of_nonneg_left hpow (le_of_lt ht0R)
        have h5 : (cfg.detThreshold : ℝ) *
            ((cfg.detThresholdMin : ℝ) / (cfg.detThreshold : ℝ)) =
            (cfg.detThresholdMin : ℝ) := by
          field_simp
        linarith
      have hfin : cfg.detThreshold * cfg.detThresholdScaling ^ K ≤
          cfg.detThresholdMin := by exact_mod_cast hfinR
      simp only [loopCond, Bool.and_eq_false_iff]
      right
      simp only [decide_eq_false_iff_not, not_lt, hthresh]
      exact hfin
    · push_neg at hall
      obtain ⟨j, hj, hfalse⟩ := hall
      have hfalse' : loopCond cfg
          ((selectStep cfg env)^[j] (initLoopState cfg m1 m2)) = false := by
        simpa using hfalse
      have hsame : (selectStep cfg env)^[K] (initLoopState cfg m1 m2) =
          (selectStep cfg env)^[j] (initLoopState cfg m1 m2) := by
        have hsplit : K = (K - j) + j := (Nat.sub_add_cancel (le_of_lt hj)).symm
        rw [hsplit, Function.iterate_add_apply]
        exact iterate_of_stopped cfg env _ hfalse' (K - j)
      rw [hsame]
      exact hfalse'

/-- A concrete policy for the termination witness, with scaling 1/2 written
in reduced normal form. -/
def c5Cfg : SelectPolicy :=
  { fpNpixMax := 9, kernelCols := 3, kernelRows := 3, fpGrowKsize := 1,
    minCleanFp := 1, detThreshold := 10,
    detThresholdScaling := ⟨1, 2, by decide, by decide⟩,
    detThresholdMin := 1 }

/-- Witness for C5 at a concrete policy/environment. -/
theorem detection_threshold_decreases_and_terminates_witness :
    (0 < c5Cfg.detThresholdScaling) ∧ (c5Cfg.detThresholdScaling < 1) ∧
    (0 < c5Cfg.detThresholdMin) ∧
    (c5Cfg.detThresholdMin < c5Cfg.detThreshold) ∧
    ((∀ k : ℕ,
      loopCond c5Cfg ((selectStep c5Cfg testEnv)^[k]
        (initLoopState c5Cfg testMask testMask)) = true →
      ((selectStep c5Cfg testEnv)^[k + 1]
        (initLoopState c5Cfg testMask testMask)).thresh <
        ((selectStep c5Cfg testEnv)^[k]
          (initLoopState c5Cfg testMask testMask)).thresh) ∧
    loopCond c5Cfg ((selectStep c5Cfg testEnv)^[(⌈Real.log
        ((c5Cfg.detThresholdMin : ℝ) / (c5Cfg.detThreshold : ℝ)) /
          Real.log (c5Cfg.detThresholdScaling : ℝ)⌉).toNat]
      (initLoopState c5Cfg testMask testMask)) = false) :=
  ⟨by decide, by decide, by decide, by decide,
    detection_threshold_decreases_and_terminates c5Cfg testEnv testMask testMask
      (by decide) (by decide) (by decide) (by decide)⟩

theorem lor_eq_zero (a b : ℕ) : a ||| b = 0 ↔ a = 0 ∧ b = 0 := by
  constructor
  · intro h
    have hb : ∀ i, a.testBit i = false ∧ b.testBit i = false := by
      intro i
      have h2 := congrArg (fun n => Nat.testBit n i) h
      simp only [Nat.testBit_lor, Nat.zero_testBit, Bool.or_eq_false_iff] at h2
      exact h2
    constructor
    · apply Nat.eq_of_testBit_eq
      intro i
      simp [(hb i).1, Nat.zero_testBit]
    · apply Nat.eq_of_testBit_eq
      intro i
      simp [(hb i).2, Nat.zero_testBit]
  · rintro ⟨rfl, rfl⟩
    rfl

theorem clearBit_of_land_zero (v bit : ℕ) (h : v &&& bit = 0) :
    clearBit v bit = v := by
  apply Nat.eq_of_testBit_eq
  intro i
  have h2 := congrArg (fun n => Nat.testBit n i) h
  simp only [Nat.testBit_land, Nat.zero_testBit, Bool.and_eq_false_iff] at h2
  rw [clearBit]
  simp only [Nat.testBit_xor, Nat.testBit_lor]
  rcases h2 with hv | hb
  · simp [hv]
  · simp [hb]

theorem clearBit_lor_self (v bit : ℕ) :
    clearBit (v ||| bit) bit = clearBit v bit := by
  have hself : bit ||| bit = bit := by
    apply Nat.eq_of_testBit_eq
    intro i
    simp [Nat.testBit_lor]
  rw [clearBit, clearBit, Nat.lor_assoc, hself]

theorem foldl_lor_eq_zero (m : MaskPlane) :
    ∀ (ps : List (ℤ × ℤ)) (b : ℕ),
      (ps.foldl (fun acc p => acc ||| m p) b = 0 ↔
        b = 0 ∧ ∀ p ∈ ps, m p = 0) := by
  intro ps
  induction ps with
  | nil => intro b; simp
  | cons q qs ih =>
      intro b
      simp only [List.foldl_cons, ih, lor_eq_zero, List.mem_cons]
      constructor
      · rintro ⟨⟨hb, hq⟩, hall⟩
        refine ⟨hb, fun p hp => ?_⟩
        rcases hp with rfl | hp
        · exact hq
        · exact hall p hp
      · rintro ⟨hb, hall⟩
        exact ⟨⟨hb, hall q (Or.inl rfl)⟩, fun p hp => hall p (Or.inr hp)⟩

theorem findSetBits_eq_zero_iff (m : MaskPlane) (ps : List (ℤ × ℤ)) :
    findSetBits m ps = 0 ↔ ∀ p ∈ ps, m p = 0 := by
  rw [findSetBits, foldl_lor_eq_zero]
  simp

theorem checkFootprint_ok_elim (cfg : SelectPolicy) (env : SelectEnv)
    (m1 m2 : MaskPlane) (fp fpGrow : Footprint)
    (h : checkFootprint cfg env m1 m2 fp = .ok fpGrow) :
    fpGrow = env.grow (fpGrowPix cfg) fp ∧
    findSetBits m1 fpGrow.pixels = 0 ∧ findSetBits m2 fpGrow.pixels = 0 := by
  simp only [checkFootprint] at h
  split_ifs at h with h1 h2 h3 h4 h5
  injection h with hEq
  subst hEq
  exact ⟨rfl, not_not.mp h4, not_not.mp h5⟩

/-- A pixel lies in some footprint of the list. -/
def coveredBy (out : List Footprint) (p : ℤ × ℤ) : Prop :=
  ∃ fp, fp ∈ out ∧ p ∈ fp.pixels

/-- During a pass, a mutated mask equals the pass-start base mask with the
candidate bit ORed in over exactly the pixels of the accepted footprints. -/
def maskEvolved (b : MaskPlane) (cBit : ℕ) (out : List Footprint)
    (m : MaskPlane) : Prop :=
  ∀ p, (coveredBy out p → m p = b p ||| cBit) ∧ (¬coveredBy out p → m p = b p)

/-- Invariant carried through one detection pass: both masks evolved from the
pass-start bases, every accepted footprint's pixels are clean in both bases,
and accepted footprints are pairwise disjoint. -/
def passStateOK (b1 b2 : MaskPlane) (cBit : ℕ) (st : PassState) : Prop :=
  maskEvolved b1 cBit st.out st.mask1 ∧ maskEvolved b2 cBit st.out st.mask2 ∧
  (∀ fp ∈ st.out, ∀ p ∈ fp.pixels, b1 p = 0 ∧ b2 p = 0) ∧
  List.Pairwise (fun f g => ∀ p ∈ f.pixels, p ∉ g.pixels) st.out

theorem coveredBy_append_singleton (out : List Footprint) (g : Footprint)
    (p : ℤ × ℤ) :
    coveredBy (out ++ [g]) p ↔ coveredBy out p ∨ p ∈ g.pixels := by
  constructor
  · rintro ⟨fp, hfp, hp⟩
    rw [List.mem_append, List.mem_singleton] at hfp
    rcases hfp with hfp | rfl
    · exact Or.inl ⟨fp, hfp, hp⟩
    · exact Or.inr hp
  · rintro (⟨fp, hfp, hp⟩ | hp)
    · exact ⟨fp, by simp [hfp], hp⟩
    · exact ⟨g, by simp, hp⟩

theorem processFootprint_of_error (cfg : SelectPolicy) (env : SelectEnv)
    (st : PassState) (fp : Footprint) (r : RejectReason)
    (h : checkFootprint cfg env st.mask1 st.mask2 fp = .error r) :
    processFootprint cfg env st fp = st := by
  simp [processFootprint, h]

theorem processFootprint_of_ok (cfg : SelectPolicy) (env : SelectEnv)
    (st : PassState) (fp fpGrow : Footprint)
    (h : checkFootprint cfg env st.mask1 st.mask2 fp = .ok fpGrow) :
    processFootprint cfg env st fp =
      { mask1 := setMaskFromFootprint st.mask1 fpGrow.pixels env.candidateBit
        mask2 := setMaskFromFootprint st.mask2 fpGrow.pixels env.candidateBit
        out := st.out ++ [fpGrow] } := by
  simp [processFootprint, h]

theorem processFootprint_preserves (cfg : SelectPolicy) (env : SelectEnv)
    (hcb : env.candidateBit ≠ 0) (b1 b2 : MaskPlane) (st : PassState)
    (fp : Footprint) (h : passStateOK b1 b2 env.candidateBit st) :
    passStateOK b1 b2 env.candidateBit (processFootprint cfg env st fp) := by
  obtain ⟨hM1, hM2, hClean, hDisj⟩ := h
  cases hch : checkFootprint cfg env st.mask1 st.mask2 fp with
  | error r =>
      rw [processFootprint_of_error cfg env st fp r hch]
      exact ⟨hM1, hM2, hClean, hDisj⟩
  | ok fpGrow =>
      rw [processFootprint_of_ok cfg env st fp fpGrow hch]
      obtain ⟨-, hz1, hz2⟩ :=
        checkFootprint_ok_elim cfg env st.mask1 st.mask2 fp fpGrow hch
      have hclean1 := (findSetBits_eq_zero_iff st.mask1 fpGrow.pixels).mp hz1
      have hclean2 := (findSetBits_eq_zero_iff st.mask2 fpGrow.pixels).mp hz2
      have hnew : ∀ p ∈ fpGrow.pixels,
          ¬coveredBy st.out p ∧ b1 p = 0 ∧ b2 p = 0 := by
        intro p hp
        have hm1p := hclean1 p hp
        have hm2p := hclean2 p hp
        by_cases hc : coveredBy st.out p
        · exfalso
          rw [(hM1 p).1 hc] at hm1p
          exact hcb ((lor_eq_zero _ _).mp hm1p).2
        · rw [(hM1 p).2 hc] at hm1p
          rw [(hM2 p).2 hc] at hm2p
          exact ⟨hc, hm1p, hm2p⟩
      refine ⟨?_, ?_, ?_, ?_⟩
      · intro p
        constructor
        · intro hcov
          rw [coveredBy_append_singleton] at hcov
          by_cases hp : p ∈ fpGrow.pixels
          · have e1 := (hM1 p).2 (hnew p hp).1
            simp [setMaskFromFootprint, hp, e1]
          · rcases hcov with hcov | hcov
            · have e1 := (hM1 p).1 hcov
              simp [setMaskFromFootprint, hp, e1]
            · exact absurd hcov hp
        · intro hcov
          rw [coveredBy_append_singleton] at hcov
          push_neg at hcov
          obtain ⟨hcov1, hcov2⟩ := hcov
          have e1 := (hM1 p).2 hcov1
          simp [setMaskFromFootprint, hcov2, e1]
      · intro p
        constructor
        · intro hcov
          rw [coveredBy_append_singleton] at hcov
          by_cases hp : p ∈ fpGrow.pixels
          · have e2 := (hM2 p).2 (hnew p hp).1
            simp [setMaskFromFootprint, hp, e2]
          · rcases hcov with hcov | hcov
            · have e2 := (hM2 p).1 hcov
              simp [setMaskFromFootprint, hp, e2]
            · exact absurd hcov hp
        · intro hcov
          rw [coveredBy_append_singleton] at hcov
          push_neg at hcov
          obtain ⟨hcov1, hcov2⟩ := hcov
          have e2 := (hM2 p).2 hcov1
          simp [setMaskFromFootprint, hcov2, e2]
      · intro g hg p hp
        rw [List.mem_append, List.mem_singleton] at hg
        rcases hg with hg | rfl
        · exact hClean g hg p hp
        · exact ⟨(hnew p hp).2.1, (hnew p hp).2.2⟩
      · rw [List.pairwise_append]
        refine ⟨hDisj, List.pairwise_singleton _ _, ?_⟩
        intro f hf g hg p hp
        rw [List.mem_singleton] at hg
        subst hg
        intro hpg
        exact (hnew p hpg).1 ⟨f, hf, hp⟩

theorem processFootprintList_preserves (cfg : SelectPolicy) (env : SelectEnv)
    (hcb : env.candidateBit ≠ 0) (b1 b2 : MaskPlane) :
    ∀ (fps : List Footprint) (st : PassState),
      passStateOK b1 b2 env.candidateBit st →
      passStateOK b1 b2 env.candidateBit (processFootprintList cfg env st fps) := by
  intro fps
  induction fps with
  | nil => intro st h; exact h
  | cons fp fps ih =>
      intro st h
      exact ih _ (processFootprint_preserves cfg env hcb b1 b2 st fp h)

/-- Invariant across retry-loop iterations: clearing the candidate bit from
either mutated mask recovers the caller's original mask, accepted footprints
are clean with respect to the original masks, and they are pairwise
disjoint. -/
def loopStateOK (m1G m2G : MaskPlane) (cBit : ℕ) (st : LoopState) : Prop :=
  (∀ p, clearBit (st.mask1 p) cBit = m1G p) ∧
  (∀ p, clearBit (st.mask2 p) cBit = m2G p) ∧
  (∀ fp ∈ st.out, ∀ p ∈ fp.pixels, m1G p = 0 ∧ m2G p = 0) ∧
  List.Pairwise (fun f g => ∀ p ∈ f.pixels, p ∉ g.pixels) st.out

theorem selectPass_parts (cfg : SelectPolicy) (env : SelectEnv)
    (st : LoopState) :
    (selectPass cfg env st).mask1 =
      (processFootprintList cfg env
        { mask1 := clearMaskPlane st.mask1 env.candidateBit
          mask2 := clearMaskPlane st.mask2 env.candidateBit
          out := [] } (env.detect st.thresh)).mask1 ∧
    (selectPass cfg env st).mask2 =
      (processFootprintList cfg env
        { mask1 := clearMaskPlane st.mask1 env.candidateBit
          mask2 := clearMaskPlane st.mask2 env.candidateBit
          out := [] } (env.detect st.thresh)).mask2 ∧
    (selectPass cfg env st).out =
      (processFootprintList cfg env
        { mask1 := clearMaskPlane st.mask1 env.candidateBit
          mask2 := clearMaskPlane st.mask2 env.candidateBit
          out := [] } (env.detect st.thresh)).out :=
  ⟨rfl, rfl, rfl⟩

theorem selectPass_preserves_loopOK (cfg : SelectPolicy) (env : SelectEnv)
    (hcb : env.candidateBit ≠ 0) (m1G m2G : MaskPlane)
    (h1z : ∀ p, m1G p &&& env.candidateBit = 0)
    (h2z : ∀ p, m2G p &&& env.candidateBit = 0) (st : LoopState)
    (h : loopStateOK m1G m2G env.candidateBit st) :
    loopStateOK m1G m2G env.candidateBit (selectPass cfg env st) := by
  obtain ⟨h1, h2, _, _⟩ := h
  have hstart1 : clearMaskPlane st.mask1 env.candidateBit = m1G :=
    funext fun p => h1 p
  have hstart2 : clearMaskPlane st.mask2 env.candidateBit = m2G :=
    funext fun p => h2 p
  have hinit : passStateOK m1G m2G env.candidateBit
      { mask1 := clearMaskPlane st.mask1 env.candidateBit
        mask2 := clearMaskPlane st.mask2 env.candidateBit
        out := [] } := by
    refine ⟨?_, ?_, ?_, ?_⟩
    · intro p
      refine ⟨?_, ?_⟩
      · rintro ⟨fp, hfp, -⟩
        exact absurd hfp (List.not_mem_nil fp)
      · intro _
        rw [hstart1]
    · intro p
      refine ⟨?_, ?_⟩
      · rintro ⟨fp, hfp, -⟩
        exact absurd hfp (List.not_mem_nil fp)
      · intro _
        rw [hstart2]
    · intro fp hfp
      exact absurd hfp (List.not_mem_nil fp)
    · exact List.Pairwise.nil
  have hps := processFootprintList_preserves cfg env hcb m1G m2G
    (env.detect st.thresh) _ hinit
  obtain ⟨hM1, hM2, hCleanPs, hDisjPs⟩ := hps
  obtain ⟨e1, e2, e3⟩ := selectPass_parts cfg env st
  refine ⟨?_, ?_, ?_, ?_⟩
  · intro p
    rw [e1]
    by_cases hc : coveredBy (processFootprintList cfg env
        { mask1 := clearMaskPlane st.mask1 env.candidateBit
          mask2 := clearMaskPlane st.mask2 env.candidateBit
          out := [] } (env.detect st.thresh)).out p
    · rw [(hM1 p).1 hc, clearBit_lor_self, clearBit_of_land_zero _ _ (h1z p)]
    · rw [(hM1 p).2 hc, clearBit_of_land_zero _ _ (h1z p)]
  · intro p
    rw [e2]
    by_cases hc : coveredBy (processFootprintList cfg env
        { mask1 := clearMaskPlane st.mask1 env.candidateBit
          mask2 := clearMaskPlane st.mask2 env.candidateBit
          out := [] } (env.detect st.thresh)).out p
    · rw [(hM2 p).1 hc, clearBit_lor_self, clearBit_of_land_zero _ _ (h2z p)]
    · rw [(hM2 p).2 hc, clearBit_of_land_zero _ _ (h2z p)]
  · rw [e3]
    exact hCleanPs
  · rw [e3]
    exact hDisjPs

theorem runSelect_loopOK (cfg : SelectPolicy) (env : SelectEnv)
    (hcb : env.candidateBit ≠ 0) (m1 m2 : MaskPlane)
    (h1z : ∀ p, m1 p &&& env.candidateBit = 0)
    (h2z : ∀ p, m2 p &&& env.candidateBit = 0) :
    ∀ fuel : ℕ, loopStateOK m1 m2 env.candidateBit (runSelect cfg env m1 m2 fuel) := by
  intro fuel
  induction fuel with
  | zero =>
      refine ⟨?_, ?_, ?_, ?_⟩
      · intro p
        exact clearBit_of_land_zero _ _ (h1z p)
      · intro p
        exact clearBit_of_land_zero _ _ (h2z p)
      · intro fp hfp
        exact absurd hfp (List.not_mem_nil fp)
      · exact List.Pairwise.nil
  | succ n ih =>
      rw [runSelect, Function.iterate_succ_apply']
      by_cases hrun : loopCond cfg ((selectStep cfg env)^[n] (initLoopState cfg m1 m2)) = true
      · rw [selectStep_of_running cfg env _ hrun]
        exact selectPass_preserves_loopOK cfg env hcb m1 m2 h1z h2z _ ih
      · rw [selectStep_of_stopped cfg env _ (by simpa using hrun)]
        exact ih

/-- C3: every footprint in the list produced by the selection run has no mask
bit set, in either input image's (original) mask, on any of its pixels, and
the accepted footprints are pairwise disjoint — together these say each
footprint's grown region was entirely unmasked at the moment it was accepted
(the mask seen at acceptance time is the original mask plus candidate bits of
earlier-accepted, disjoint footprints).  Hypotheses: the freshly added
candidate plane's bit is a real bit not present in the input masks. -/
theorem accepted_footprints_unmasked (cfg : SelectPolicy) (env : SelectEnv)
    (m1 m2 : MaskPlane) (fuel : ℕ) (hcb : env.candidateBit ≠ 0)
    (h1z : ∀ p, m1 p &&& env.candidateBit = 0)
    (h2z : ∀ p, m2 p &&& env.candidateBit = 0) :
    (∀ fp ∈ (runSelect cfg env m1 m2 fuel).out, ∀ p ∈ fp.pixels,
      m1 p = 0 ∧ m2 p = 0) ∧
    List.Pairwise (fun f g => ∀ p ∈ f.pixels, p ∉ g.pixels)
      (runSelect cfg env m1 m2 fuel).out ∧
    (∀ l, getCollectionOfFootprints cfg env m1 m2 fuel = .ok l →
      ∀ fp ∈ l, ∀ p ∈ fp.pixels, m1 p = 0 ∧ m2 p = 0) := by
  obtain ⟨-, -, hClean, hDisj⟩ :=
    runSelect_loopOK cfg env hcb m1 m2 h1z h2z fuel
  refine ⟨hClean, hDisj, ?_⟩
  intro l hl
  rw [getCollectionOfFootprints] at hl
  by_cases hz : (runSelect cfg env m1 m2 fuel).out.length = 0
  · rw [if_pos hz] at hl
    exact Except.noConfusion hl
  · rw [if_neg hz] at hl
    injection hl with hl
    subst hl
    exact hClean

/-- Witness for C3 at the concrete run. -/
theorem accepted_footprints_unmasked_witness :
    (testEnv.candidateBit ≠ 0) ∧
    (∀ p : ℤ × ℤ, testMask p &&& testEnv.candidateBit = 0) ∧
    ((∀ fp ∈ (runSelect testCfg testEnv testMask testMask 1).out,
      ∀ p ∈ fp.pixels, testMask p = 0 ∧ testMask p = 0) ∧
    List.Pairwise (fun f g => ∀ p ∈ f.pixels, p ∉ g.pixels)
      (runSelect testCfg testEnv testMask testMask 1).out ∧
    (∀ l, getCollectionOfFootprints testCfg testEnv testMask testMask 1 = .ok l →
      ∀ fp ∈ l, ∀ p ∈ fp.pixels, testMask p = 0 ∧ testMask p = 0)) :=
  ⟨by decide, fun _ => Nat.zero_and _,
    accepted_footprints_unmasked testCfg testEnv testMask testMask 1
      (by decide) (fun _ => Nat.zero_and _) (fun _ => Nat.zero_and _)⟩
